import Mathlib

/-!
Shallow embedding of the documentai repository (nicarley/documentai).

The repository contains two parallel implementations of the same chatbot
backend and worker:
  * src/ai_chatbot_app/backend.py and src/ai_chatbot_app/worker.py
    (modelled here with the suffix B), and
  * src/documentai.py, a monolithic variant (modelled with the suffix D).

File-system state (documents folder, persisted FAISS index directories) and
the in-memory caches are modelled explicitly as fields of a state record;
external collaborators (document loaders, embeddings, the Ollama LLM call)
are parameters of the operations.  Machine behaviour that the claims do not
touch (actual vector contents, network I/O) is abstracted, but every control
path of the embedded functions follows the source line by line.
-/

namespace DocumentAI

/-- Supported document file extensions, in the fixed priority order used by
both variants ([.pdf, .docx, .txt, .xls, .xlsx]). -/
inductive Ext
  | pdf
  | docx
  | txt
  | xls
  | xlsx
deriving DecidableEq, Fintype

/-- The extension priority order appearing in both delete_document loops and
in the glob order of backend.py setup_vector_stores. -/
def extOrder : List Ext := [Ext.pdf, Ext.docx, Ext.txt, Ext.xls, Ext.xlsx]

/-- Position of an extension in the priority order. -/
def extPos : Ext → Nat
  | Ext.pdf => 0
  | Ext.docx => 1
  | Ext.txt => 2
  | Ext.xls => 3
  | Ext.xlsx => 4

/-- Characters kept by documentai.py _sanitize_filename: alphanumeric,
space, underscore, hyphen. -/
def keepChar (c : Char) : Bool := c.isAlphanum || c == ' ' || c == '_' || c == '-'

/-- Trailing-whitespace trim (Python str.rstrip) on a character list. -/
def rstripChars (l : List Char) : List Char :=
  (l.reverse.dropWhile Char.isWhitespace).reverse

/-- documentai.py _sanitize_filename: keep alphanumeric, space, underscore
and hyphen characters, then strip trailing whitespace. -/
def sanitizeFilename (name : String) : String :=
  String.mk (rstripChars (name.data.filter keepChar))

/-- A constructed QA pipeline (OllamaLLM client + retriever + RetrievalQA
chain), recorded by the model identifier and endpoint URL it was bound to
at construction time. -/
structure Chain where
  model : String
  url : String
deriving DecidableEq

/-- The exception raised by backend.py setup_qa_chain when the persisted
vector store for a document is missing (ValueError in the source). -/
inductive AiError
  | notFound (doc : String)
deriving DecidableEq

/-- Message text of the embedded error. -/
def aiErrorMessage : AiError → String
  | AiError.notFound doc => "Vector store for document " ++ doc ++ " not found."

/-- Association-list lookup by key (Python dict read). -/
def lookupKey {κ : Type} (name : String) : List (String × κ) → Option κ
  | [] => none
  | (k, v) :: rest => if k = name then some v else lookupKey name rest

/-- Association-list deletion by key (Python dict del). -/
def eraseKey {κ : Type} (name : String) (l : List (String × κ)) : List (String × κ) :=
  l.filter (fun p => p.1 != name)

/-- Removal of the first occurrence of an element (file unlink / dict del on
a represented set). -/
def eraseOne {α : Type} [DecidableEq α] (a : α) : List α → List α
  | [] => []
  | b :: rest => if b = a then rest else b :: eraseOne a rest

/-- First extension in priority order for which a source file with the given
stem exists; this is the loop with break used by delete_document in both
variants and by _get_loader_for_document in documentai.py. -/
def firstExt (documentName : String) (files : List (String × Ext)) : Option Ext :=
  extOrder.find? (fun e => decide ((documentName, e) ∈ files))

/-- Unlink of the first matching source file (the for/break/unlink block of
delete_document in both variants): at most one file is removed. -/
def removeFirstSourceFile (documentName : String) (files : List (String × Ext)) :
    List (String × Ext) :=
  match firstExt documentName files with
  | none => files
  | some e => eraseOne (documentName, e) files

/-- State of the ai_chatbot_app backend (backend.py): source files as
(stem, extension) pairs, names of persisted vector store directories,
the qa_chains cache, and the Ollama base URL. -/
structure BState where
  docsFiles : List (String × Ext)
  stores : List String
  qaChains : List (String × Chain)
  ollamaUrl : String
deriving DecidableEq

/-- State of the documentai.py backend: source files, sanitized names of
persisted FAISS index directories, document names present in the in-memory
vector_stores dict, the llm attribute, and the Ollama base URL. -/
structure DState where
  docsFiles : List (String × Ext)
  stores : List String
  vectorStores : List String
  llmClient : Option Chain
  ollamaUrl : String
deriving DecidableEq

deriving instance DecidableEq for Except

/-- Result of an ask call: the returned answer or propagated exception, the
post state, and the list of QA pipelines constructed during the call. -/
structure AskRes (σ : Type) where
  answer : Except AiError String
  state : σ
  constructed : List Chain
deriving DecidableEq

/-- Result of a delete_document call: the post state, the number of rmtree
attempts on the storage location, whether a delay-then-retry happened, and
whether a storage-removal failure was raised to the caller. -/
structure DeleteRes (σ : Type) where
  state : σ
  rmtreeAttempts : Nat
  delayed : Bool
  raised : Bool
deriving DecidableEq

/-- backend.py update_ollama_url: set the URL and clear the qa_chains
cache. -/
def updateOllamaUrlB (newUrl : String) (s : BState) : BState :=
  { s with ollamaUrl := newUrl, qaChains := [] }

/-- documentai.py update_ollama_url: set the URL only. -/
def updateOllamaUrlD (newUrl : String) (s : DState) : DState :=
  { s with ollamaUrl := newUrl }

/-- backend.py storage location key: get_vector_store_for_document uses the
raw document name as the directory name. -/
def storageKeyB (documentName : String) : String := documentName

/-- documentai.py storage location key: the sanitized document name. -/
def storageKeyD (documentName : String) : String := sanitizeFilename documentName

/-- Order in which backend.py setup_vector_stores visits files: the
concatenation of one recursive glob per supported extension. -/
def globFilesB (files : List (String × Ext)) : List (String × Ext) :=
  (extOrder.map (fun e => files.filter (fun f => f.2 == e))).flatten

/-- One iteration of the backend.py setup_vector_stores loop.  The
accumulator carries the state and the list of documents for which a new
index was built (FAISS.from_documents + save_local).  load returns none when
the loader raises and some chunks otherwise; an empty load result is skipped
without persisting (the "No content loaded" branch). -/
def setupStepB (load : String → Ext → Option (List String))
    (acc : BState × List String) (f : String × Ext) : BState × List String :=
  if storageKeyB f.1 ∈ acc.1.stores then acc
  else
    match load f.1 f.2 with
    | none => acc
    | some [] => acc
    | some (_ :: _) =>
      ({ acc.1 with stores := storageKeyB f.1 :: acc.1.stores }, acc.2 ++ [f.1])

/-- backend.py setup_vector_stores: for each discovered file, skip when the
store directory exists, otherwise load, split, build and persist. -/
def setupVectorStoresB (load : String → Ext → Option (List String)) (s : BState) :
    BState × List String :=
  (globFilesB s.docsFiles).foldl (setupStepB load) (s, [])

/-- One iteration of the documentai.py setup_vector_stores loop over file
stems.  When the sanitized storage directory exists the index is loaded from
disk into vector_stores (loadOk models the try/except around
FAISS.load_local); otherwise the loader found by extension priority is run
and, on success, the index is built, persisted under the sanitized key and
recorded in vector_stores. -/
def setupStepD (load : String → Ext → Option (List String)) (loadOk : String → Bool)
    (files : List (String × Ext)) (acc : DState × List String) (stem : String) :
    DState × List String :=
  if storageKeyD stem ∈ acc.1.stores then
    if loadOk stem then ({ acc.1 with vectorStores := stem :: acc.1.vectorStores }, acc.2)
    else acc
  else
    match (firstExt stem files).bind (fun e => load stem e) with
    | none => acc
    | some _ =>
      ({ acc.1 with stores := storageKeyD stem :: acc.1.stores,
                    vectorStores := stem :: acc.1.vectorStores }, acc.2 ++ [stem])

/-- documentai.py setup_vector_stores: reset the in-memory vector_stores
dict, then process the stem of every file in the documents folder. -/
def setupVectorStoresD (load : String → Ext → Option (List String))
    (loadOk : String → Bool) (s : DState) : DState × List String :=
  (s.docsFiles.map (fun f => f.1)).foldl (setupStepD load loadOk s.docsFiles)
    ({ s with vectorStores := [] }, [])

/-- backend.py get_available_documents: the sorted set of stems of files
with a supported extension. -/
def availableDocumentsB (s : BState) : List String :=
  (((globFilesB s.docsFiles).map (fun f => f.1)).dedup).mergeSort (fun a b => a ≤ b)

/-- documentai.py get_available_documents: the stem of every file in the
documents folder, in directory order. -/
def availableDocumentsD (s : DState) : List String :=
  s.docsFiles.map (fun f => f.1)

/-- backend.py setup_qa_chain: raises when the persisted store directory for
the document is missing, otherwise builds the pipeline bound to the given
model and the current URL and stores it in qa_chains. -/
def setupQaChainB (documentName ollamaModel : String) (s : BState) :
    Except AiError BState :=
  if storageKeyB documentName ∈ s.stores then
    Except.ok { s with
      qaChains := (documentName, Chain.mk ollamaModel s.ollamaUrl)
        :: eraseKey documentName s.qaChains }
  else
    Except.error (AiError.notFound documentName)

/-- Message of the dead defensive branch in backend.py ask (qa_chain still
missing after setup). -/
def chainMissingMsg (documentName : String) : String :=
  "Error: QA chain for document " ++ documentName ++ " is not initialized."

/-- backend.py ask: build the chain on a cache miss (which can raise
NotFound), then look the chain up and invoke it.  llm abstracts the
retrieval + generation call of the cached chain. -/
def askB (llm : String → String → Chain → String)
    (question documentName ollamaModel : String) (s : BState) : AskRes BState :=
  match (if (lookupKey documentName s.qaChains).isNone then
           (setupQaChainB documentName ollamaModel s).map
             (fun s1 => (s1, [Chain.mk ollamaModel s.ollamaUrl]))
         else Except.ok (s, [])) with
  | Except.error e => AskRes.mk (Except.error e) s []
  | Except.ok (s1, built) =>
    match lookupKey documentName s1.qaChains with
    | none => AskRes.mk (Except.ok (chainMissingMsg documentName)) s1 built
    | some c => AskRes.mk (Except.ok (llm question documentName c)) s1 built

/-- The string returned by documentai.py ask when the document is not in the
in-memory vector_stores dict. -/
def notReadyMsg : String := "Vector store for the selected document is not ready."

/-- documentai.py ask: return the not-ready string when the document has no
in-memory index; otherwise construct a fresh OllamaLLM client and RetrievalQA
chain bound to the current URL and model, store the client in self.llm, and
invoke the chain. -/
def askD (llm : String → String → Chain → String)
    (question documentName ollamaModel : String) (s : DState) : AskRes DState :=
  if documentName ∈ s.vectorStores then
    let c : Chain := Chain.mk ollamaModel s.ollamaUrl
    AskRes.mk (Except.ok (llm question documentName c)) { s with llmClient := some c } [c]
  else
    AskRes.mk (Except.ok notReadyMsg) s []

/-- backend.py delete_document: unlink the first matching source file, then
rmtree the storage directory (a single attempt whose failure propagates and
skips the cache eviction), then drop the qa_chains entry. -/
def deleteB (documentName : String) (rmFail : Bool) (s : BState) : DeleteRes BState :=
  let files1 := removeFirstSourceFile documentName s.docsFiles
  if storageKeyB documentName ∈ s.stores then
    if rmFail then
      DeleteRes.mk { s with docsFiles := files1 } 1 false true
    else
      DeleteRes.mk
        { s with docsFiles := files1,
                 stores := eraseOne (storageKeyB documentName) s.stores,
                 qaChains := eraseKey documentName s.qaChains } 1 false false
  else
    DeleteRes.mk
      { s with docsFiles := files1, qaChains := eraseKey documentName s.qaChains }
      0 false false

/-- documentai.py delete_document: evict the in-memory index, unlink the
first matching source file, then rmtree the sanitized storage directory; an
OSError on the first attempt triggers one retry after a short delay with
ignore_errors=True, so no failure ever reaches the caller.  rmFail gives the
outcome of each rmtree attempt. -/
def deleteD (documentName : String) (rmFail : Nat → Bool) (s : DState) : DeleteRes DState :=
  let s1 := { s with vectorStores := eraseOne documentName s.vectorStores }
  let s2 := { s1 with docsFiles := removeFirstSourceFile documentName s1.docsFiles }
  if storageKeyD documentName ∈ s2.stores then
    if rmFail 0 then
      if rmFail 1 then DeleteRes.mk s2 2 true false
      else DeleteRes.mk { s2 with stores := eraseOne (storageKeyD documentName) s2.stores }
        2 true false
    else DeleteRes.mk { s2 with stores := eraseOne (storageKeyD documentName) s2.stores }
      1 false false
  else DeleteRes.mk s2 0 false false

/-- Events emitted through WorkerSignals (both worker variants). -/
inductive Ev
  | status (msg : String)
  | result (msg : String)
  | error (msg : String)
  | finished
deriving DecidableEq

/-- Status message emitted at the start of setup_backend. -/
def initStatusMsg : String := "Initializing knowledge base... This may take a moment."

/-- Status message emitted after a successful setup_vector_stores. -/
def readyStatusMsg : String := "Vector stores are ready."

/-- Event trace of Worker.setup_backend (identical in worker.py and
documentai.py): an initial status, then either the ready status or an error
when setup_vector_stores raised, then finished. -/
def workerSetupBackendEvents (setupError : Option String) : List Ev :=
  Ev.status initStatusMsg ::
    ((match setupError with
      | none => [Ev.status readyStatusMsg]
      | some msg => [Ev.error msg]) ++ [Ev.finished])

/-- Python truthiness of the optional string attributes of the worker. -/
def optTruthy : Option String → Bool
  | none => false
  | some s => s != ""

/-- Event trace of worker.py Worker.ask_question: when the stored question
and document name are truthy, the backend call yields one result or one
error; a finished event is always emitted last.  outcome is the result of
the backend ask call. -/
def workerAskQuestionB (question documentName : Option String)
    (outcome : Except AiError String) : List Ev :=
  if optTruthy question && optTruthy documentName then
    (match outcome with
     | Except.ok r => [Ev.result r]
     | Except.error e => [Ev.error (aiErrorMessage e)]) ++ [Ev.finished]
  else [Ev.finished]

/-- Event trace of documentai.py Worker.ask_question: one result or error
event when the arguments are truthy, and no finished event at all. -/
def workerAskQuestionD (question documentName : String)
    (outcome : Except AiError String) : List Ev :=
  if question != "" && documentName != "" then
    match outcome with
    | Except.ok r => [Ev.result r]
    | Except.error e => [Ev.error (aiErrorMessage e)]
  else []

/-- Recognizer for status events. -/
def isStatusEv : Ev → Bool
  | Ev.status _ => true
  | _ => false

/-- Recognizer for result events. -/
def isResultEv : Ev → Bool
  | Ev.result _ => true
  | _ => false

/-- Recognizer for result-or-error events. -/
def isResErrEv : Ev → Bool
  | Ev.result _ => true
  | Ev.error _ => true
  | _ => false

/-- Recognizer for finished events. -/
def isFinishedEv : Ev → Bool
  | Ev.finished => true
  | _ => false

/-- Number of result events in a trace. -/
def countResultEvents (evs : List Ev) : Nat := evs.countP isResultEv

/-- Number of result-or-error events in a trace. -/
def countResErrEvents (evs : List Ev) : Nat := evs.countP isResErrEv

/-- Number of finished events in a trace. -/
def countFinishedEvents (evs : List Ev) : Nat := evs.countP isFinishedEv

/-- Spec-side well-formedness of a per-task event trace, following the
amended ordering claim: some status events, then at most one result or error
event, then a trailing finished event (mandatory when requireFinished is
true), and no event after the finished. -/
def WorkerSeqSpec (requireFinished : Bool) (evs : List Ev) : Prop :=
  ∃ ss ro fo : List Ev,
    (∀ e ∈ ss, isStatusEv e = true) ∧
    (ro = [] ∨ ∃ e, isResErrEv e = true ∧ ro = [e]) ∧
    (fo = [Ev.finished] ∨ (requireFinished = false ∧ fo = [])) ∧
    evs = ss ++ ro ++ fo

/-- Modelled from the spec: the RecursiveCharacterTextSplitter used by both
setup_vector_stores call sites is external library code; the spec fixes its
chunking algorithm as: chunk i starts at offset i * (chunkSize - overlap),
extends up to chunkSize units or end of text, and iteration stops once a
chunk reaches the end of the text.  The fuel argument bounds the recursion
and is set to the text length, which suffices whenever step is positive. -/
def splitGo (chunkSize step : Nat) : Nat → List Char → List (List Char)
  | 0, t => [t]
  | fuel + 1, t =>
    if t.length ≤ chunkSize then [t]
    else t.take chunkSize :: splitGo chunkSize step fuel (t.drop step)

/-- Modelled from the spec: the deterministic splitter with the given chunk
size and overlap, as specified for the splitter configured with
chunk_size=1000, chunk_overlap=200 at both call sites. -/
def splitChunks (chunkSize overlap : Nat) (t : List Char) : List (List Char) :=
  splitGo chunkSize (chunkSize - overlap) t.length t

/-- Overlap relation between consecutive chunks for the 1000/200
configuration: the earlier chunk is full length and its last 200 units are
the first 200 units of the later chunk. -/
def chunkOverlapRel (a b : List Char) : Prop :=
  a.length = 1000 ∧ a.drop 800 = b.take 200

/-- A concrete stand-in for the external LLM call, used in concrete
instantiations. -/
def stubLlm : String → String → Chain → String := fun _ _ _ => "stub answer"

theorem lookupKey_cons_self {κ : Type} (k : String) (v : κ) (l : List (String × κ)) :
    lookupKey k ((k, v) :: l) = some v := by
  simp [lookupKey]

theorem lookupKey_eraseKey {κ : Type} (k : String) (l : List (String × κ)) :
    lookupKey k (eraseKey k l) = none := by
  induction l with
  | nil => simp [eraseKey, lookupKey]
  | cons p rest ih =>
    by_cases h : p.1 = k
    · simpa [eraseKey, h] using ih
    · simpa [eraseKey, List.filter_cons, h, lookupKey] using ih

theorem eraseOne_sublist {α : Type} [DecidableEq α] (a : α) (l : List α) :
    (eraseOne a l).Sublist l := by
  induction l with
  | nil => simp [eraseOne]
  | cons b rest ih =>
    by_cases h : b = a
    · simp only [eraseOne, if_pos h]
      exact List.sublist_cons_self b rest
    · simpa [eraseOne, h] using ih.cons₂ b

theorem mem_eraseOne_of_ne {α : Type} [DecidableEq α] {a b : α} (h : b ≠ a)
    (l : List α) : b ∈ eraseOne a l ↔ b ∈ l := by
  induction l with
  | nil => simp [eraseOne]
  | cons g rest ih =>
    by_cases hg : g = a
    · subst hg
      simp [eraseOne, h]
    · simp [eraseOne, hg, ih]

theorem not_mem_eraseOne_self {α : Type} [DecidableEq α] {a : α} {l : List α}
    (h : l.Nodup) : a ∉ eraseOne a l := by
  induction l with
  | nil => simp [eraseOne]
  | cons g rest ih =>
    rcases List.nodup_cons.mp h with ⟨hg, hrest⟩
    by_cases hga : g = a
    · subst hga
      simpa [eraseOne] using hg
    · simp only [eraseOne, if_neg hga, List.mem_cons]
      rintro (rfl | hmem)
      · exact hga rfl
      · exact ih hrest hmem

theorem eraseOne_of_not_mem {α : Type} [DecidableEq α] {a : α} {l : List α}
    (h : a ∉ l) : eraseOne a l = l := by
  induction l with
  | nil => simp [eraseOne]
  | cons g rest ih =>
    have hga : g ≠ a := fun hg => h (hg ▸ List.mem_cons_self g rest)
    simp only [eraseOne, if_neg hga]
    rw [ih (fun hm => h (List.mem_cons_of_mem g hm))]

theorem ext_mem_extOrder (e : Ext) : e ∈ extOrder := by
  cases e <;> simp [extOrder]

theorem mem_globFilesB {f : String × Ext} {files : List (String × Ext)} :
    f ∈ globFilesB files ↔ f ∈ files := by
  constructor
  · intro h
    rcases List.mem_flatten.mp h with ⟨l, hl, hf⟩
    rcases List.mem_map.mp hl with ⟨e, _, rfl⟩
    exact (List.filter_sublist files).mem hf
  · intro h
    refine List.mem_flatten.mpr ⟨files.filter (fun g => g.2 == f.2), ?_, ?_⟩
    · exact List.mem_map.mpr ⟨f.2, ext_mem_extOrder f.2, rfl⟩
    · simp [List.mem_filter, h]

theorem mem_availableDocumentsB {s : BState} {name : String} :
    name ∈ availableDocumentsB s ↔ ∃ e, (name, e) ∈ s.docsFiles := by
  simp only [availableDocumentsB, List.mem_mergeSort, List.mem_dedup, List.mem_map]
  constructor
  · rintro ⟨⟨n, e⟩, hf, rfl⟩
    exact ⟨e, mem_globFilesB.mp hf⟩
  · rintro ⟨e, he⟩
    exact ⟨(name, e), mem_globFilesB.mpr he, rfl⟩

theorem firstExt_none {name : String} {files : List (String × Ext)}
    (h : firstExt name files = none) : ∀ e, (name, e) ∉ files := by
  intro e he
  have := List.find?_eq_none.mp h e (ext_mem_extOrder e)
  simp [he] at this

theorem firstExt_isSome_of_mem {name : String} {files : List (String × Ext)} {e : Ext}
    (h : (name, e) ∈ files) : ∃ e1, firstExt name files = some e1 := by
  cases hf : firstExt name files with
  | none => exact absurd h (firstExt_none hf e)
  | some e1 => exact ⟨e1, rfl⟩

theorem firstExt_first {name : String} {files : List (String × Ext)} {e : Ext}
    (h : firstExt name files = some e) :
    (name, e) ∈ files ∧ ∀ e2, extPos e2 < extPos e → (name, e2) ∉ files := by
  by_cases h1 : (name, Ext.pdf) ∈ files
  · have he : e = Ext.pdf := by
      simp [firstExt, extOrder, List.find?, h1] at h
      exact h.symm
    subst he
    exact ⟨h1, fun e2 hlt => by cases e2 <;> simp [extPos] at hlt⟩
  · by_cases h2 : (name, Ext.docx) ∈ files
    · have he : e = Ext.docx := by
        simp [firstExt, extOrder, List.find?, h1, h2] at h
        exact h.symm
      subst he
      refine ⟨h2, fun e2 hlt => ?_⟩
      cases e2 <;> simp [extPos] at hlt
      exact h1
    · by_cases h3 : (name, Ext.txt) ∈ files
      · have he : e = Ext.txt := by
          simp [firstExt, extOrder, List.find?, h1, h2, h3] at h
          exact h.symm
        subst he
        refine ⟨h3, fun e2 hlt => ?_⟩
        cases e2 <;> simp [extPos] at hlt
        · exact h1
        · exact h2
      · by_cases h4 : (name, Ext.xls) ∈ files
        · have he : e = Ext.xls := by
            simp [firstExt, extOrder, List.find?, h1, h2, h3, h4] at h
            exact h.symm
          subst he
          refine ⟨h4, fun e2 hlt => ?_⟩
          cases e2 <;> simp [extPos] at hlt
          · exact h1
          · exact h2
          · exact h3
        · by_cases h5 : (name, Ext.xlsx) ∈ files
          · have he : e = Ext.xlsx := by
              simp [firstExt, extOrder, List.find?, h1, h2, h3, h4, h5] at h
              exact h.symm
            subst he
            refine ⟨h5, fun e2 hlt => ?_⟩
            cases e2 <;> simp [extPos] at hlt
            · exact h1
            · exact h2
            · exact h3
            · exact h4
          · exfalso
            simp [firstExt, extOrder, List.find?, h1, h2, h3, h4, h5] at h

theorem dropWhile_cons_head {α : Type} {p : α → Bool} {x : List α} {b : α} {t : List α}
    (h : List.dropWhile p x = b :: t) : p b = false := by
  induction x with
  | nil => simp [List.dropWhile] at h
  | cons a rest ih =>
    by_cases ha : p a
    · exact ih (by simpa [List.dropWhile, ha] using h)
    · have : a :: rest = b :: t := by simpa [List.dropWhile, ha] using h
      cases this
      simpa using ha

/-- C1 counterexample: in documentai.py, an Ask for a document with no
vector index does not raise; ChatbotBackend.ask returns the ordinary string
"Vector store for the selected document is not ready." and
Worker.ask_question emits it as a result event, contradicting the claim that
ask fails with NotFound and that no result event is emitted. -/
theorem c1_counterexample :
    (askD stubLlm "What does it say?" "missing" "m"
        (DState.mk [] [] [] none "http://localhost:11434")).answer
      = Except.ok notReadyMsg ∧
    workerAskQuestionD "What does it say?" "missing"
        (askD stubLlm "What does it say?" "missing" "m"
          (DState.mk [] [] [] none "http://localhost:11434")).answer
      = [Ev.result notReadyMsg] := by
  constructor <;> rfl

/-- C1 amended: in the ai_chatbot_app backend, ask on a document with no
persisted index and no cached chain raises NotFound and the worker emits no
result event for that ask; in documentai.py, ask instead returns the
not-ready string as an ordinary answer and the worker emits it as a result
event (with no error). -/
theorem c1_amended_ask_missing :
    (∀ (llm : String → String → Chain → String) (q d m : String) (s : BState),
      d ∉ s.stores → lookupKey d s.qaChains = none →
        (askB llm q d m s).answer = Except.error (AiError.notFound d) ∧
        countResultEvents
          (workerAskQuestionB (some q) (some d) (askB llm q d m s).answer) = 0) ∧
    (∀ (llm : String → String → Chain → String) (q d m : String) (s : DState),
      d ∉ s.vectorStores →
        (askD llm q d m s).answer = Except.ok notReadyMsg ∧
        workerAskQuestionD q d (askD llm q d m s).answer =
          (if q != "" && d != "" then [Ev.result notReadyMsg] else [])) := by
  constructor
  · intro llm q d m s hstore hchain
    have hask : (askB llm q d m s).answer = Except.error (AiError.notFound d) := by
      simp [askB, hchain, setupQaChainB, storageKeyB, hstore, Except.map]
    refine ⟨hask, ?_⟩
    rw [hask]
    by_cases h : optTruthy (some q) && optTruthy (some d) <;>
      simp [workerAskQuestionB, h, countResultEvents, isResultEv]
  · intro llm q d m s hmem
    have hask : (askD llm q d m s).answer = Except.ok notReadyMsg := by
      simp [askD, hmem]
    refine ⟨hask, ?_⟩
    rw [hask]
    by_cases h : q != "" && d != "" <;> simp [workerAskQuestionD, h]

/-- C1 witness: the amended theorem applied to concrete states with no index
for the requested document. -/
theorem c1_witness :
    ((askB stubLlm "q" "missing" "m" (BState.mk [] [] [] "u")).answer
        = Except.error (AiError.notFound "missing") ∧
      countResultEvents (workerAskQuestionB (some "q") (some "missing")
        (askB stubLlm "q" "missing" "m" (BState.mk [] [] [] "u")).answer) = 0) ∧
    ((askD stubLlm "q" "missing" "m" (DState.mk [] [] [] none "u")).answer
        = Except.ok notReadyMsg ∧
      workerAskQuestionD "q" "missing"
          (askD stubLlm "q" "missing" "m" (DState.mk [] [] [] none "u")).answer =
        (if "q" != "" && "missing" != "" then [Ev.result notReadyMsg] else [])) :=
  And.intro
    (c1_amended_ask_missing.1 stubLlm "q" "missing" "m" (BState.mk [] [] [] "u")
      (by simp) (by rfl))
    (c1_amended_ask_missing.2 stubLlm "q" "missing" "m" (DState.mk [] [] [] none "u")
      (by simp))

/-- C2 counterexample: a successful setup task emits its two status events
and finished but no result and no error event, refuting that exactly one of
result or error occurs; and documentai.py Worker.ask_question emits the
result with no finished event at all, refuting that exactly one finished
follows. -/
theorem c2_counterexample :
    countResErrEvents (workerSetupBackendEvents none) = 0 ∧
    countFinishedEvents (workerAskQuestionD "q" "doc" (Except.ok "answer")) = 0 := by
  constructor <;> rfl

/-- C2 amended: every handler emits zero or more status events, then at most
one result or error event, then at most one finished event with nothing
after it; the two ai_chatbot_app handlers and the documentai.py setup
handler always end in exactly one finished, while documentai.py ask_question
emits no finished. -/
theorem c2_amended_event_order :
    (∀ o, WorkerSeqSpec true (workerSetupBackendEvents o)) ∧
    (∀ q d oc, WorkerSeqSpec true (workerAskQuestionB q d oc)) ∧
    (∀ q d oc, WorkerSeqSpec false (workerAskQuestionD q d oc)) := by
  refine ⟨?_, ?_, ?_⟩
  · intro o
    cases o with
    | none =>
      exact ⟨[Ev.status initStatusMsg, Ev.status readyStatusMsg], [], [Ev.finished],
        by simp [isStatusEv], Or.inl rfl, Or.inl rfl, by simp [workerSetupBackendEvents]⟩
    | some msg =>
      exact ⟨[Ev.status initStatusMsg], [Ev.error msg], [Ev.finished],
        by simp [isStatusEv], Or.inr ⟨Ev.error msg, by simp [isResErrEv], rfl⟩,
        Or.inl rfl, by simp [workerSetupBackendEvents]⟩
  · intro q d oc
    by_cases h : optTruthy q && optTruthy d
    · cases oc with
      | ok r =>
        exact ⟨[], [Ev.result r], [Ev.finished],
          by simp, Or.inr ⟨Ev.result r, by simp [isResErrEv], rfl⟩,
          Or.inl rfl, by simp [workerAskQuestionB, h]⟩
      | error e =>
        exact ⟨[], [Ev.error (aiErrorMessage e)], [Ev.finished],
          by simp, Or.inr ⟨Ev.error (aiErrorMessage e), by simp [isResErrEv], rfl⟩,
          Or.inl rfl, by simp [workerAskQuestionB, h]⟩
    · exact ⟨[], [], [Ev.finished], by simp, Or.inl rfl, Or.inl rfl,
        by simp [workerAskQuestionB, h]⟩
  · intro q d oc
    by_cases h : q != "" && d != ""
    · cases oc with
      | ok r =>
        exact ⟨[], [Ev.result r], [],
          by simp, Or.inr ⟨Ev.result r, by simp [isResErrEv], rfl⟩,
          Or.inr ⟨rfl, rfl⟩, by simp [workerAskQuestionD, h]⟩
      | error e =>
        exact ⟨[], [Ev.error (aiErrorMessage e)], [],
          by simp, Or.inr ⟨Ev.error (aiErrorMessage e), by simp [isResErrEv], rfl⟩,
          Or.inr ⟨rfl, rfl⟩, by simp [workerAskQuestionD, h]⟩
    · exact ⟨[], [], [], by simp, Or.inl rfl, Or.inr ⟨rfl, rfl⟩,
        by simp [workerAskQuestionD, h]⟩

/-- C3 counterexample: in documentai.py, two consecutive asks for the same
document under the same endpoint URL construct a fresh LLM client and
RetrievalQA chain on each call, so two pipeline constructions occur, not
one. -/
theorem c3_counterexample :
    (askD stubLlm "q1" "a" "m"
        (DState.mk [("a", Ext.txt)] ["a"] ["a"] none "u")).constructed.length +
    (askD stubLlm "q2" "a" "m"
        (askD stubLlm "q1" "a" "m"
          (DState.mk [("a", Ext.txt)] ["a"] ["a"] none "u")).state).constructed.length
      = 2 := by
  rfl

/-- C3 amended: in the ai_chatbot_app backend, two consecutive asks for the
same document under an unchanged endpoint construct the pipeline exactly
once (the first call builds and caches, the second reuses the cache); in
documentai.py every ask constructs a fresh pipeline, so each of two
consecutive asks performs one construction. -/
theorem c3_amended_cache_reuse :
    (∀ (llm : String → String → Chain → String) (q1 q2 d m1 m2 : String) (s : BState),
      d ∈ s.stores → lookupKey d s.qaChains = none →
        (askB llm q1 d m1 s).constructed = [Chain.mk m1 s.ollamaUrl] ∧
        (askB llm q2 d m2 (askB llm q1 d m1 s).state).constructed = []) ∧
    (∀ (llm : String → String → Chain → String) (q1 q2 d m1 m2 : String) (s : DState),
      d ∈ s.vectorStores →
        (askD llm q1 d m1 s).constructed = [Chain.mk m1 s.ollamaUrl] ∧
        (askD llm q2 d m2 (askD llm q1 d m1 s).state).constructed
          = [Chain.mk m2 s.ollamaUrl]) := by
  constructor
  · intro llm q1 q2 d m1 m2 s hmem hnone
    have h1 : askB llm q1 d m1 s =
        AskRes.mk (Except.ok (llm q1 d (Chain.mk m1 s.ollamaUrl)))
          { s with qaChains := (d, Chain.mk m1 s.ollamaUrl) :: eraseKey d s.qaChains }
          [Chain.mk m1 s.ollamaUrl] := by
      simp [askB, hnone, setupQaChainB, storageKeyB, hmem, Except.map, lookupKey_cons_self]
    refine ⟨by rw [h1], ?_⟩
    rw [h1]
    simp [askB, lookupKey_cons_self]
  · intro llm q1 q2 d m1 m2 s hmem
    refine ⟨by simp [askD, hmem], ?_⟩
    have hstate : (askD llm q1 d m1 s).state =
        { s with llmClient := some (Chain.mk m1 s.ollamaUrl) } := by
      simp [askD, hmem]
    rw [hstate]
    simp [askD, hmem]

/-- C3 witness: the amended theorem applied to concrete states holding an
index for document a. -/
theorem c3_witness :
    ((askB stubLlm "q1" "a" "m1" (BState.mk [("a", Ext.txt)] ["a"] [] "u")).constructed
        = [Chain.mk "m1" "u"] ∧
      (askB stubLlm "q2" "a" "m2"
        (askB stubLlm "q1" "a" "m1"
          (BState.mk [("a", Ext.txt)] ["a"] [] "u")).state).constructed = []) ∧
    ((askD stubLlm "q1" "a" "m1"
        (DState.mk [("a", Ext.txt)] ["a"] ["a"] none "u")).constructed
        = [Chain.mk "m1" "u"] ∧
      (askD stubLlm "q2" "a" "m2"
        (askD stubLlm "q1" "a" "m1"
          (DState.mk [("a", Ext.txt)] ["a"] ["a"] none "u")).state).constructed
        = [Chain.mk "m2" "u"]) :=
  And.intro
    (c3_amended_cache_reuse.1 stubLlm "q1" "q2" "a" "m1" "m2"
      (BState.mk [("a", Ext.txt)] ["a"] [] "u") (by simp) (by rfl))
    (c3_amended_cache_reuse.2 stubLlm "q1" "q2" "a" "m1" "m2"
      (DState.mk [("a", Ext.txt)] ["a"] ["a"] none "u") (by simp))

/-- C4: changing the endpoint URL via update_ollama_url clears every cached
pipeline in the ai_chatbot_app backend, and the next ask for a document with
a persisted index constructs a fresh pipeline bound to the new URL; in
documentai.py no pipeline is ever cached and an ask after the change also
constructs its pipeline bound to the new URL. -/
theorem c4_url_change_invalidates :
    (∀ (u : String) (s : BState),
      (updateOllamaUrlB u s).qaChains = [] ∧ (updateOllamaUrlB u s).ollamaUrl = u) ∧
    (∀ (u : String) (s : BState) (llm : String → String → Chain → String)
        (q d m : String), d ∈ s.stores →
      (askB llm q d m (updateOllamaUrlB u s)).constructed = [Chain.mk m u]) ∧
    (∀ (u : String) (s : DState) (llm : String → String → Chain → String)
        (q d m : String), d ∈ s.vectorStores →
      (askD llm q d m (updateOllamaUrlD u s)).constructed = [Chain.mk m u]) := by
  refine ⟨fun u s => ⟨rfl, rfl⟩, ?_, ?_⟩
  · intro u s llm q d m hmem
    simp [askB, updateOllamaUrlB, lookupKey, setupQaChainB, storageKeyB, hmem,
      Except.map, lookupKey_cons_self]
  · intro u s llm q d m hmem
    simp [askD, updateOllamaUrlD, hmem]

/-- C4 witness: the theorem applied to a concrete cached state whose URL is
switched from u to v. -/
theorem c4_witness :
    ((updateOllamaUrlB "v" (BState.mk [("a", Ext.txt)] ["a"]
        [("a", Chain.mk "m" "u")] "u")).qaChains = [] ∧
      (updateOllamaUrlB "v" (BState.mk [("a", Ext.txt)] ["a"]
        [("a", Chain.mk "m" "u")] "u")).ollamaUrl = "v") ∧
    (askB stubLlm "q" "a" "m" (updateOllamaUrlB "v"
        (BState.mk [("a", Ext.txt)] ["a"] [("a", Chain.mk "m" "u")] "u"))).constructed
      = [Chain.mk "m" "v"] ∧
    (askD stubLlm "q" "a" "m" (updateOllamaUrlD "v"
        (DState.mk [("a", Ext.txt)] ["a"] ["a"] none "u"))).constructed
      = [Chain.mk "m" "v"] :=
  And.intro
    (c4_url_change_invalidates.1 "v"
      (BState.mk [("a", Ext.txt)] ["a"] [("a", Chain.mk "m" "u")] "u"))
    (And.intro
      (c4_url_change_invalidates.2.1 "v"
        (BState.mk [("a", Ext.txt)] ["a"] [("a", Chain.mk "m" "u")] "u")
        stubLlm "q" "a" "m" (by simp))
      (c4_url_change_invalidates.2.2 "v"
        (DState.mk [("a", Ext.txt)] ["a"] ["a"] none "u")
        stubLlm "q" "a" "m" (by simp)))

theorem setupStepB_docsFiles (load : String → Ext → Option (List String))
    (acc : BState × List String) (f : String × Ext) :
    ((setupStepB load acc f).1).docsFiles = acc.1.docsFiles := by
  simp only [setupStepB]
  split
  · rfl
  · split <;> rfl

theorem foldB_docsFiles (load : String → Ext → Option (List String))
    (fs : List (String × Ext)) (acc : BState × List String) :
    ((fs.foldl (setupStepB load) acc).1).docsFiles = acc.1.docsFiles := by
  induction fs generalizing acc with
  | nil => rfl
  | cons g fs ih =>
    rw [List.foldl_cons, ih, setupStepB_docsFiles]

theorem setupStepB_stores_mono (load : String → Ext → Option (List String))
    (acc : BState × List String) (f : String × Ext) :
    acc.1.stores ⊆ ((setupStepB load acc f).1).stores := by
  simp only [setupStepB]
  split
  · exact fun a ha => ha
  · split
    · exact fun a ha => ha
    · exact fun a ha => ha
    · exact fun a ha => List.mem_cons_of_mem _ ha

theorem foldB_stores_mono (load : String → Ext → Option (List String))
    (fs : List (String × Ext)) (acc : BState × List String) :
    acc.1.stores ⊆ ((fs.foldl (setupStepB load) acc).1).stores := by
  induction fs generalizing acc with
  | nil => exact fun a ha => ha
  | cons g fs ih =>
    rw [List.foldl_cons]
    exact fun a ha => ih (setupStepB load acc g) (setupStepB_stores_mono load acc g ha)

theorem foldB_covers (load : String → Ext → Option (List String))
    (fs : List (String × Ext)) (acc : BState × List String) :
    ∀ f ∈ fs, (∃ x xs, load f.1 f.2 = some (x :: xs)) →
      f.1 ∈ ((fs.foldl (setupStepB load) acc).1).stores := by
  induction fs generalizing acc with
  | nil => intro f hf; simp at hf
  | cons g fs ih =>
    intro f hf hb
    rw [List.foldl_cons]
    rcases List.mem_cons.mp hf with rfl | hmem
    · refine foldB_stores_mono load fs (setupStepB load acc f) ?_
      by_cases hg : f.1 ∈ acc.1.stores
      · simp [setupStepB, storageKeyB, hg]
      · rcases hb with ⟨x, xs, hl⟩
        simp [setupStepB, storageKeyB, hg, hl]
    · exact ih (setupStepB load acc g) f hmem hb

theorem foldB_no_builds (load : String → Ext → Option (List String))
    (fs : List (String × Ext)) (acc : BState × List String)
    (h : ∀ f ∈ fs, (∃ x xs, load f.1 f.2 = some (x :: xs)) → f.1 ∈ acc.1.stores) :
    (fs.foldl (setupStepB load) acc).2 = acc.2 := by
  induction fs generalizing acc with
  | nil => rfl
  | cons g fs ih =>
    have hstep : setupStepB load acc g = acc := by
      by_cases hg : g.1 ∈ acc.1.stores
      · simp [setupStepB, storageKeyB, hg]
      · cases hl : load g.1 g.2 with
        | none => simp [setupStepB, storageKeyB, hg, hl]
        | some ts =>
          cases ts with
          | nil => simp [setupStepB, storageKeyB, hg, hl]
          | cons x xs =>
            exact absurd (h g (List.mem_cons_self g fs) ⟨x, xs, hl⟩) hg
    rw [List.foldl_cons, hstep]
    exact ih acc (fun f hf hb => h f (List.mem_cons_of_mem g hf) hb)

theorem setupStepD_docsFiles (load : String → Ext → Option (List String))
    (loadOk : String → Bool) (files : List (String × Ext))
    (acc : DState × List String) (stem : String) :
    ((setupStepD load loadOk files acc stem).1).docsFiles = acc.1.docsFiles := by
  simp only [setupStepD]
  split
  · split <;> rfl
  · split <;> rfl

theorem foldD_docsFiles (load : String → Ext → Option (List String))
    (loadOk : String → Bool) (files : List (String × Ext))
    (stems : List String) (acc : DState × List String) :
    ((stems.foldl (setupStepD load loadOk files) acc).1).docsFiles = acc.1.docsFiles := by
  induction stems generalizing acc with
  | nil => rfl
  | cons g stems ih =>
    rw [List.foldl_cons, ih, setupStepD_docsFiles]

theorem setupStepD_stores_mono (load : String → Ext → Option (List String))
    (loadOk : String → Bool) (files : List (String × Ext))
    (acc : DState × List String) (stem : String) :
    acc.1.stores ⊆ ((setupStepD load loadOk files acc stem).1).stores := by
  simp only [setupStepD]
  split
  · split
    · exact fun a ha => ha
    · exact fun a ha => ha
  · split
    · exact fun a ha => ha
    · exact fun a ha => List.mem_cons_of_mem _ ha

theorem foldD_stores_mono (load : String → Ext → Option (List String))
    (loadOk : String → Bool) (files : List (String × Ext))
    (stems : List String) (acc : DState × List String) :
    acc.1.stores ⊆ ((stems.foldl (setupStepD load loadOk files) acc).1).stores := by
  induction stems generalizing acc with
  | nil => exact fun a ha => ha
  | cons g stems ih =>
    rw [List.foldl_cons]
    exact fun a ha => ih (setupStepD load loadOk files acc g)
      (setupStepD_stores_mono load loadOk files acc g ha)

theorem foldD_covers (load : String → Ext → Option (List String))
    (loadOk : String → Bool) (files : List (String × Ext))
    (stems : List String) (acc : DState × List String) :
    ∀ stem ∈ stems, (∃ t, (firstExt stem files).bind (fun e => load stem e) = some t) →
      storageKeyD stem ∈ ((stems.foldl (setupStepD load loadOk files) acc).1).stores := by
  induction stems generalizing acc with
  | nil => intro stem hs; simp at hs
  | cons g stems ih =>
    intro stem hs hb
    rw [List.foldl_cons]
    rcases List.mem_cons.mp hs with rfl | hmem
    · refine foldD_stores_mono load loadOk files stems
        (setupStepD load loadOk files acc stem) ?_
      by_cases hg : storageKeyD stem ∈ acc.1.stores
      · by_cases hok : loadOk stem <;> simp [setupStepD, hg, hok]
      · rcases hb with ⟨t, hl⟩
        simp [setupStepD, hg, hl]
    · exact ih (setupStepD load loadOk files acc g) stem hmem hb

theorem foldD_no_builds (load : String → Ext → Option (List String))
    (loadOk : String → Bool) (files : List (String × Ext))
    (stems : List String) (acc : DState × List String)
    (h : ∀ stem ∈ stems,
      (∃ t, (firstExt stem files).bind (fun e => load stem e) = some t) →
        storageKeyD stem ∈ acc.1.stores) :
    (stems.foldl (setupStepD load loadOk files) acc).2 = acc.2 := by
  induction stems generalizing acc with
  | nil => rfl
  | cons g stems ih =>
    have hstep : ((setupStepD load loadOk files acc g).1).stores = acc.1.stores ∧
        (setupStepD load loadOk files acc g).2 = acc.2 := by
      by_cases hg : storageKeyD g ∈ acc.1.stores
      · by_cases hok : loadOk g <;> simp [setupStepD, hg, hok]
      · cases hl : (firstExt g files).bind (fun e => load g e) with
        | none => simp [setupStepD, hg, hl]
        | some t =>
          exact absurd (h g (List.mem_cons_self g stems) ⟨t, hl⟩) hg
    rw [List.foldl_cons]
    rw [ih (setupStepD load loadOk files acc g)
      (fun stem hs hb => hstep.1 ▸ h stem (List.mem_cons_of_mem g hs) hb)]
    exact hstep.2

/-- C5: setup_vector_stores is idempotent in both variants: with the same
loader outcomes and the storage left by a first call, a second call builds
and persists no index (every document is skipped because its storage
location exists, loaded, or fails to load exactly as before). -/
theorem c5_setup_idempotent :
    (∀ (load : String → Ext → Option (List String)) (s : BState),
      (setupVectorStoresB load (setupVectorStoresB load s).1).2 = []) ∧
    (∀ (load : String → Ext → Option (List String)) (loadOk : String → Bool)
        (s : DState),
      (setupVectorStoresD load loadOk (setupVectorStoresD load loadOk s).1).2 = []) := by
  constructor
  · intro load s
    have hdocs : ((setupVectorStoresB load s).1).docsFiles = s.docsFiles :=
      foldB_docsFiles load (globFilesB s.docsFiles) (s, [])
    show ((globFilesB ((setupVectorStoresB load s).1).docsFiles).foldl
      (setupStepB load) ((setupVectorStoresB load s).1, [])).2 = []
    rw [hdocs]
    exact foldB_no_builds load (globFilesB s.docsFiles) ((setupVectorStoresB load s).1, [])
      (fun f hf hb => foldB_covers load (globFilesB s.docsFiles) (s, []) f hf hb)
  · intro load loadOk s
    have hdef : ∀ (s1 : DState), setupVectorStoresD load loadOk s1 =
        (s1.docsFiles.map (fun f => f.1)).foldl (setupStepD load loadOk s1.docsFiles)
          ({ s1 with vectorStores := [] }, []) := fun s1 => rfl
    have hdocs : ((setupVectorStoresD load loadOk s).1).docsFiles = s.docsFiles := by
      rw [hdef]
      exact foldD_docsFiles load loadOk s.docsFiles (s.docsFiles.map (fun f => f.1))
        ({ s with vectorStores := [] }, [])
    rw [hdef ((setupVectorStoresD load loadOk s).1), hdocs]
    refine foldD_no_builds load loadOk s.docsFiles (s.docsFiles.map (fun f => f.1))
      (DState.mk s.docsFiles ((setupVectorStoresD load loadOk s).1).stores []
        ((setupVectorStoresD load loadOk s).1).llmClient
        ((setupVectorStoresD load loadOk s).1).ollamaUrl, [])
      (fun stem hs hb => ?_)
    show storageKeyD stem ∈ ((setupVectorStoresD load loadOk s).1).stores
    rw [hdef]
    exact foldD_covers load loadOk s.docsFiles (s.docsFiles.map (fun f => f.1))
      ({ s with vectorStores := [] }, []) stem hs hb

theorem deleteB_docsFiles (name : String) (rmFail : Bool) (s : BState) :
    ((deleteB name rmFail s).state).docsFiles = removeFirstSourceFile name s.docsFiles := by
  by_cases hst : storageKeyB name ∈ s.stores <;>
    cases rmFail <;> simp [deleteB, hst]

theorem deleteD_docsFiles (name : String) (rmFail : Nat → Bool) (s : DState) :
    ((deleteD name rmFail s).state).docsFiles = removeFirstSourceFile name s.docsFiles := by
  by_cases hst : storageKeyD name ∈ s.stores <;>
    cases h0 : rmFail 0 <;> cases h1 : rmFail 1 <;> simp [deleteD, hst, h0, h1]

theorem deleteD_vectorStores (name : String) (rmFail : Nat → Bool) (s : DState) :
    ((deleteD name rmFail s).state).vectorStores = eraseOne name s.vectorStores := by
  by_cases hst : storageKeyD name ∈ s.stores <;>
    cases h0 : rmFail 0 <;> cases h1 : rmFail 1 <;> simp [deleteD, hst, h0, h1]

theorem deleteD_stores_of_success (name : String) (rmFail : Nat → Bool) (s : DState)
    (h : rmFail 0 = false ∨ rmFail 1 = false) :
    ((deleteD name rmFail s).state).stores = eraseOne (storageKeyD name) s.stores := by
  by_cases hst : storageKeyD name ∈ s.stores
  · cases h0 : rmFail 0 with
    | false => simp [deleteD, hst, h0]
    | true =>
      have h1 : rmFail 1 = false := by
        rcases h with h | h
        · rw [h0] at h
          cases h
        · exact h
      simp [deleteD, hst, h0, h1]
  · rw [eraseOne_of_not_mem hst]
    cases h0 : rmFail 0 <;> cases h1 : rmFail 1 <;> simp [deleteD, hst, h0, h1]

theorem no_name_in_removeFirst {s : List (String × Ext)} {name : String}
    (hnd : s.Nodup) (huniq : ∀ e1 e2, (name, e1) ∈ s → (name, e2) ∈ s → e1 = e2) :
    ∀ e, (name, e) ∉ removeFirstSourceFile name s := by
  intro e he
  cases hfe : firstExt name s with
  | none =>
    rw [removeFirstSourceFile, hfe] at he
    exact firstExt_none hfe e he
  | some e0 =>
    rw [removeFirstSourceFile, hfe] at he
    by_cases hee : (name, e) = (name, e0)
    · rw [hee] at he
      exact not_mem_eraseOne_self hnd he
    · have hmem : (name, e) ∈ s := (mem_eraseOne_of_ne hee s).mp he
      exact hee (by rw [huniq e e0 hmem (firstExt_first hfe).1])

/-- C6 counterexample: with both a.pdf and a.txt present, delete_document
removes only the first matching source file, so a.txt survives and the
document name a is still listed among the available documents, contradicting
the claim that the listing no longer contains the name. -/
theorem c6_counterexample :
    ("a", Ext.txt) ∈ ((deleteB "a" false
        (BState.mk [("a", Ext.pdf), ("a", Ext.txt)] ["a"]
          [("a", Chain.mk "m" "u")] "u")).state).docsFiles ∧
    "a" ∈ availableDocumentsB ((deleteB "a" false
        (BState.mk [("a", Ext.pdf), ("a", Ext.txt)] ["a"]
          [("a", Chain.mk "m" "u")] "u")).state) := by
  have hfiles : ((deleteB "a" false
      (BState.mk [("a", Ext.pdf), ("a", Ext.txt)] ["a"]
        [("a", Chain.mk "m" "u")] "u")).state).docsFiles = [("a", Ext.txt)] := by decide
  exact ⟨by rw [hfiles]; simp,
    mem_availableDocumentsB.mpr ⟨Ext.txt, by rw [hfiles]; simp⟩⟩

/-- C6 amended: when the documents folder holds at most one source file
whose stem is the given name (the folder, the store list and the in-memory
cache being duplicate-free), delete_document leaves the source file absent,
the cache without an entry for the name, and the name unlisted, in both
variants; the storage location is absent in the ai_chatbot_app variant, and
in documentai.py provided at least one of the two rmtree attempts succeeds
(a double failure is swallowed and leaves the storage in place).  With
several extensions sharing the stem only the first match is unlinked and
the name can remain listed. -/
theorem c6_amended_delete_postconditions :
    (∀ (s : BState) (name : String),
      s.docsFiles.Nodup →
      (∀ e1 e2, (name, e1) ∈ s.docsFiles → (name, e2) ∈ s.docsFiles → e1 = e2) →
      s.stores.Nodup →
      name ∉ ((deleteB name false s).state).stores ∧
      (∀ e, (name, e) ∉ ((deleteB name false s).state).docsFiles) ∧
      lookupKey name ((deleteB name false s).state).qaChains = none ∧
      name ∉ availableDocumentsB ((deleteB name false s).state)) ∧
    (∀ (s : DState) (name : String) (rmFail : Nat → Bool),
      s.docsFiles.Nodup →
      (∀ e1 e2, (name, e1) ∈ s.docsFiles → (name, e2) ∈ s.docsFiles → e1 = e2) →
      s.stores.Nodup →
      s.vectorStores.Nodup →
      (rmFail 0 = false ∨ rmFail 1 = false) →
      storageKeyD name ∉ ((deleteD name rmFail s).state).stores ∧
      (∀ e, (name, e) ∉ ((deleteD name rmFail s).state).docsFiles) ∧
      name ∉ ((deleteD name rmFail s).state).vectorStores ∧
      name ∉ availableDocumentsD ((deleteD name rmFail s).state)) := by
  constructor
  · intro s name hnd huniq hnds
    have hstores : ((deleteB name false s).state).stores =
        (if name ∈ s.stores then eraseOne name s.stores else s.stores) := by
      by_cases hst : name ∈ s.stores <;> simp [deleteB, storageKeyB, hst]
    have hchains : ((deleteB name false s).state).qaChains = eraseKey name s.qaChains := by
      by_cases hst : name ∈ s.stores <;> simp [deleteB, storageKeyB, hst]
    have hnofile := no_name_in_removeFirst hnd huniq
    refine ⟨?_, ?_, ?_, ?_⟩
    · rw [hstores]
      by_cases hst : name ∈ s.stores
      · rw [if_pos hst]
        exact not_mem_eraseOne_self hnds
      · rw [if_neg hst]
        exact hst
    · intro e
      rw [deleteB_docsFiles]
      exact hnofile e
    · rw [hchains]
      exact lookupKey_eraseKey name s.qaChains
    · intro hmem
      rcases mem_availableDocumentsB.mp hmem with ⟨e, he⟩
      rw [deleteB_docsFiles] at he
      exact hnofile e he
  · intro s name rmFail hnd huniq hnds hndv hsucc
    have hnofile := no_name_in_removeFirst hnd huniq
    refine ⟨?_, ?_, ?_, ?_⟩
    · rw [deleteD_stores_of_success name rmFail s hsucc]
      exact not_mem_eraseOne_self hnds
    · intro e
      rw [deleteD_docsFiles]
      exact hnofile e
    · rw [deleteD_vectorStores]
      exact not_mem_eraseOne_self hndv
    · intro hmem
      simp only [availableDocumentsD] at hmem
      rcases List.mem_map.mp hmem with ⟨⟨n, e⟩, hf, hn⟩
      have hn2 : n = name := hn
      subst hn2
      rw [deleteD_docsFiles] at hf
      exact hnofile e hf

/-- C6 witness: the amended theorem applied to concrete states with a
single source file b.txt, its index, a cache entry, and (in the
documentai.py case) a storage removal that succeeds at once. -/
theorem c6_witness :
    ("b" ∉ ((deleteB "b" false (BState.mk [("b", Ext.txt)] ["b"]
        [("b", Chain.mk "m" "u")] "u")).state).stores ∧
      (∀ e, ("b", e) ∉ ((deleteB "b" false (BState.mk [("b", Ext.txt)] ["b"]
        [("b", Chain.mk "m" "u")] "u")).state).docsFiles) ∧
      lookupKey "b" ((deleteB "b" false (BState.mk [("b", Ext.txt)] ["b"]
        [("b", Chain.mk "m" "u")] "u")).state).qaChains = none ∧
      "b" ∉ availableDocumentsB ((deleteB "b" false (BState.mk [("b", Ext.txt)] ["b"]
        [("b", Chain.mk "m" "u")] "u")).state)) ∧
    (storageKeyD "b" ∉ ((deleteD "b" (fun _ => false)
        (DState.mk [("b", Ext.txt)] ["b"] ["b"] none "u")).state).stores ∧
      (∀ e, ("b", e) ∉ ((deleteD "b" (fun _ => false)
        (DState.mk [("b", Ext.txt)] ["b"] ["b"] none "u")).state).docsFiles) ∧
      "b" ∉ ((deleteD "b" (fun _ => false)
        (DState.mk [("b", Ext.txt)] ["b"] ["b"] none "u")).state).vectorStores ∧
      "b" ∉ availableDocumentsD ((deleteD "b" (fun _ => false)
        (DState.mk [("b", Ext.txt)] ["b"] ["b"] none "u")).state)) :=
  And.intro
    (c6_amended_delete_postconditions.1
      (BState.mk [("b", Ext.txt)] ["b"] [("b", Chain.mk "m" "u")] "u") "b"
      (by decide) (by decide) (by decide))
    (c6_amended_delete_postconditions.2
      (DState.mk [("b", Ext.txt)] ["b"] ["b"] none "u") "b" (fun _ => false)
      (by decide) (by decide) (by decide) (by decide) (Or.inl rfl))

/-- C7 counterexample: in documentai.py, when both rmtree attempts on the
storage location fail, the failure is silently swallowed (raised is false
and the storage survives), contradicting the claim that the failure is
reported to the caller; and the ai_chatbot_app variant performs no retry at
all: a single failing attempt is raised immediately. -/
theorem c7_counterexample :
    (deleteD "a" (fun _ => true)
        (DState.mk [("a", Ext.txt)] ["a"] [] none "u")).rmtreeAttempts = 2 ∧
    (deleteD "a" (fun _ => true)
        (DState.mk [("a", Ext.txt)] ["a"] [] none "u")).raised = false ∧
    "a" ∈ ((deleteD "a" (fun _ => true)
        (DState.mk [("a", Ext.txt)] ["a"] [] none "u")).state).stores ∧
    (deleteB "a" true (BState.mk [("a", Ext.txt)] ["a"] [] "u")).rmtreeAttempts = 1 ∧
    (deleteB "a" true (BState.mk [("a", Ext.txt)] ["a"] [] "u")).raised = true := by
  refine ⟨by decide, by decide, by decide, by decide, by decide⟩

/-- C7 amended: documentai.py delete_document retries the storage removal
exactly once after a short delay when the first attempt fails, but a failure
of the retry is silently ignored rather than reported to the caller; the
source file deletion happens before the storage removal and therefore
proceeds regardless of its outcome; ai_chatbot_app delete_document performs
a single attempt with no retry and propagates the failure (after the source
file was already unlinked). -/
theorem c7_amended_delete_retry :
    (∀ (s : DState) (name : String) (rmFail : Nat → Bool),
      storageKeyD name ∈ s.stores → rmFail 0 = true →
        (deleteD name rmFail s).rmtreeAttempts = 2 ∧
        (deleteD name rmFail s).delayed = true ∧
        (deleteD name rmFail s).raised = false) ∧
    (∀ (s : DState) (name : String) (rm1 rm2 : Nat → Bool),
      ((deleteD name rm1 s).state).docsFiles = ((deleteD name rm2 s).state).docsFiles) ∧
    (∀ (s : BState) (name : String), name ∈ s.stores →
        (deleteB name true s).rmtreeAttempts = 1 ∧
        (deleteB name true s).raised = true ∧
        ((deleteB name true s).state).docsFiles
          = ((deleteB name false s).state).docsFiles) := by
  refine ⟨?_, ?_, ?_⟩
  · intro s name rmFail hmem h0
    cases h1 : rmFail 1 <;> simp [deleteD, hmem, h0, h1]
  · intro s name rm1 rm2
    rw [deleteD_docsFiles, deleteD_docsFiles]
  · intro s name hmem
    refine ⟨by simp [deleteB, storageKeyB, hmem], by simp [deleteB, storageKeyB, hmem], ?_⟩
    rw [deleteB_docsFiles, deleteB_docsFiles]

/-- C7 witness: the amended theorem applied to concrete states whose storage
removal fails on every attempt. -/
theorem c7_witness :
    ((deleteD "a" (fun _ => true)
        (DState.mk [("a", Ext.txt)] ["a"] ["a"] none "u")).rmtreeAttempts = 2 ∧
      (deleteD "a" (fun _ => true)
        (DState.mk [("a", Ext.txt)] ["a"] ["a"] none "u")).delayed = true ∧
      (deleteD "a" (fun _ => true)
        (DState.mk [("a", Ext.txt)] ["a"] ["a"] none "u")).raised = false) ∧
    ((deleteB "a" true (BState.mk [("a", Ext.txt)] ["a"] [] "u")).rmtreeAttempts = 1 ∧
      (deleteB "a" true (BState.mk [("a", Ext.txt)] ["a"] [] "u")).raised = true ∧
      ((deleteB "a" true (BState.mk [("a", Ext.txt)] ["a"] [] "u")).state).docsFiles
        = ((deleteB "a" false (BState.mk [("a", Ext.txt)] ["a"] [] "u")).state).docsFiles) :=
  And.intro
    (c7_amended_delete_retry.1 (DState.mk [("a", Ext.txt)] ["a"] ["a"] none "u")
      "a" (fun _ => true) (by decide) rfl)
    (c7_amended_delete_retry.2.2 (BState.mk [("a", Ext.txt)] ["a"] [] "u") "a" (by decide))

theorem rstripChars_sublist (l : List Char) : (rstripChars l).Sublist l := by
  have h : ((l.reverse.dropWhile Char.isWhitespace).reverse).Sublist l.reverse.reverse :=
    (List.dropWhile_sublist Char.isWhitespace).reverse
  rw [List.reverse_reverse] at h
  exact h

theorem eraseOne_length_ge {α : Type} [DecidableEq α] (a : α) (l : List α) :
    l.length ≤ (eraseOne a l).length + 1 := by
  induction l with
  | nil => simp [eraseOne]
  | cons g rest ih =>
    by_cases hg : g = a
    · simp [eraseOne, hg]
    · simp only [eraseOne, if_neg hg, List.length_cons]
      omega

/-- C9 counterexample: the ai_chatbot_app backend addresses the storage
location by the raw document name, not its sanitized form: for the name a!
the two differ, and deleting a! leaves the directory named by the sanitized
form a untouched. -/
theorem c9_counterexample :
    sanitizeFilename "a!" = "a" ∧
    storageKeyB "a!" ≠ sanitizeFilename "a!" ∧
    ((deleteB "a!" false (BState.mk [] ["a"] [] "u")).state).stores = ["a"] := by
  refine ⟨by decide, by decide, by decide⟩

/-- C9 amended: documentai.py addresses the persisted storage by the
sanitized document name in both setup and delete, and the sanitizer keeps
exactly the alphanumeric, space, underscore and hyphen characters in order
and trims trailing whitespace; the ai_chatbot_app backend instead addresses
storage by the raw document name. -/
theorem c9_amended_storage_key :
    (∀ name, storageKeyD name = sanitizeFilename name) ∧
    (∀ name, storageKeyB name = name) ∧
    (∀ name, (sanitizeFilename name).data.Sublist name.data) ∧
    (∀ name c, c ∈ (sanitizeFilename name).data → keepChar c = true) ∧
    (∀ name (l : List Char) (c : Char),
      (sanitizeFilename name).data = l ++ [c] → c.isWhitespace = false) := by
  refine ⟨fun name => rfl, fun name => rfl, ?_, ?_, ?_⟩
  · intro name
    exact (rstripChars_sublist (name.data.filter keepChar)).trans
      (List.filter_sublist name.data)
  · intro name c hc
    have hmem : c ∈ name.data.filter keepChar :=
      (rstripChars_sublist (name.data.filter keepChar)).mem hc
    exact List.of_mem_filter hmem
  · intro name l c h
    have h2 : (name.data.filter keepChar).reverse.dropWhile Char.isWhitespace
        = c :: l.reverse := by
      have h3 : ((name.data.filter keepChar).reverse.dropWhile Char.isWhitespace).reverse
          = l ++ [c] := h
      have h4 := List.reverse_eq_iff.mp h3
      rw [h4, List.reverse_append]
      simp
    exact dropWhile_cons_head h2

/-- C9 witness: concrete instantiation of the amended theorem on the name
"a b!", whose sanitized form is "a b". -/
theorem c9_witness :
    storageKeyD "a b!" = sanitizeFilename "a b!" ∧
    storageKeyB "a b!" = "a b!" ∧
    (sanitizeFilename "a b!").data.Sublist "a b!".data ∧
    keepChar 'b' = true ∧
    Char.isWhitespace 'b' = false :=
  And.intro (c9_amended_storage_key.1 "a b!")
    (And.intro (c9_amended_storage_key.2.1 "a b!")
      (And.intro (c9_amended_storage_key.2.2.1 "a b!")
        (And.intro (c9_amended_storage_key.2.2.2.1 "a b!" 'b' (by decide))
          (c9_amended_storage_key.2.2.2.2 "a b!" ['a', ' '] 'b' (by decide)))))

/-- C10: delete_document unlinks at most one source file: the first existing
extension in the order pdf, docx, txt, xls, xlsx; every other file,
including other extensions of the same stem, stays on disk, and when a
second extension of the stem exists the name is still listed after the
deletion. -/
theorem c10_delete_single_file :
    (∀ (name : String) (files : List (String × Ext)),
      (removeFirstSourceFile name files).Sublist files ∧
      files.length ≤ (removeFirstSourceFile name files).length + 1) ∧
    (∀ (name : String) (files : List (String × Ext)),
      firstExt name files = none →
        removeFirstSourceFile name files = files ∧ ∀ e, (name, e) ∉ files) ∧
    (∀ (name : String) (files : List (String × Ext)) (e : Ext),
      firstExt name files = some e →
        ((name, e) ∈ files ∧ ∀ e2, extPos e2 < extPos e → (name, e2) ∉ files) ∧
        removeFirstSourceFile name files = eraseOne (name, e) files ∧
        ∀ p ∈ files, p ≠ (name, e) → p ∈ removeFirstSourceFile name files) ∧
    (∀ (s : BState) (name : String) (e1 e2 : Ext),
      e1 ≠ e2 → (name, e1) ∈ s.docsFiles → (name, e2) ∈ s.docsFiles →
        name ∈ availableDocumentsB ((deleteB name false s).state)) := by
  refine ⟨?_, ?_, ?_, ?_⟩
  · intro name files
    cases hfe : firstExt name files with
    | none => simp [removeFirstSourceFile, hfe]
    | some e =>
      rw [removeFirstSourceFile, hfe]
      exact ⟨eraseOne_sublist (name, e) files, eraseOne_length_ge (name, e) files⟩
  · intro name files hfe
    exact ⟨by simp [removeFirstSourceFile, hfe], firstExt_none hfe⟩
  · intro name files e hfe
    refine ⟨firstExt_first hfe, by simp [removeFirstSourceFile, hfe], ?_⟩
    intro p hp hpne
    rw [removeFirstSourceFile, hfe]
    exact (mem_eraseOne_of_ne hpne files).mpr hp
  · intro s name e1 e2 hne h1 h2
    rcases firstExt_isSome_of_mem h1 with ⟨e0, hf⟩
    have hdel := deleteB_docsFiles name false s
    by_cases he1 : e1 = e0
    · have hne2 : (name, e2) ≠ (name, e0) := by
        intro hcontra
        have h5 : e2 = e0 := congrArg Prod.snd hcontra
        exact hne (he1.trans h5.symm)
      refine mem_availableDocumentsB.mpr ⟨e2, ?_⟩
      rw [hdel, removeFirstSourceFile, hf]
      exact (mem_eraseOne_of_ne hne2 s.docsFiles).mpr h2
    · have hne1 : (name, e1) ≠ (name, e0) := by
        intro hcontra
        exact he1 (congrArg Prod.snd hcontra)
      refine mem_availableDocumentsB.mpr ⟨e1, ?_⟩
      rw [hdel, removeFirstSourceFile, hf]
      exact (mem_eraseOne_of_ne hne1 s.docsFiles).mpr h1

/-- C10 witness: concrete instantiations: no source file for the name, a
single txt file, and a stem shared by pdf and txt where the name stays
listed after deletion. -/
theorem c10_witness :
    (removeFirstSourceFile "a" [] = [] ∧ ∀ e, ("a", e) ∉ ([] : List (String × Ext))) ∧
    ((("a", Ext.txt) ∈ [("a", Ext.txt)] ∧
        ∀ e2, extPos e2 < extPos Ext.txt → ("a", e2) ∉ [("a", Ext.txt)]) ∧
      removeFirstSourceFile "a" [("a", Ext.txt)]
        = eraseOne ("a", Ext.txt) [("a", Ext.txt)] ∧
      ∀ p ∈ [("a", Ext.txt)], p ≠ ("a", Ext.txt) →
        p ∈ removeFirstSourceFile "a" [("a", Ext.txt)]) ∧
    "a" ∈ availableDocumentsB ((deleteB "a" false
      (BState.mk [("a", Ext.pdf), ("a", Ext.txt)] ["a"] [] "u")).state) :=
  And.intro (c10_delete_single_file.2.1 "a" [] (by decide))
    (And.intro (c10_delete_single_file.2.2.1 "a" [("a", Ext.txt)] Ext.txt (by decide))
      (c10_delete_single_file.2.2.2
        (BState.mk [("a", Ext.pdf), ("a", Ext.txt)] ["a"] [] "u") "a"
        Ext.pdf Ext.txt (by decide) (by decide) (by decide)))

theorem splitGo_single {cs st : Nat} {t : List Char} (h : t.length ≤ cs) (fuel : Nat) :
    splitGo cs st fuel t = [t] := by
  cases fuel <;> simp [splitGo, h]

theorem splitGo_cons {cs st : Nat} {t : List Char} (h : ¬ t.length ≤ cs) (n : Nat) :
    splitGo cs st (n + 1) t = t.take cs :: splitGo cs st n (t.drop st) := by
  simp [splitGo, h]

theorem splitGo_head {cs st fuel : Nat} {t : List Char} (h : t.length ≤ fuel) :
    (splitGo cs st fuel t).head? = some (t.take cs) := by
  cases fuel with
  | zero =>
    have ht : t = [] := List.length_eq_zero.mp (Nat.le_zero.mp h)
    subst ht
    simp [splitGo]
  | succ n =>
    by_cases hc : t.length ≤ cs
    · simp [splitGo, hc, List.take_of_length_le hc]
    · simp [splitGo, hc]

theorem splitGo_chunk_le {cs st : Nat} (hst : 1 ≤ st) :
    ∀ (fuel : Nat) (t : List Char), t.length ≤ fuel →
      ∀ c ∈ splitGo cs st fuel t, c.length ≤ cs := by
  intro fuel
  induction fuel with
  | zero =>
    intro t ht c hc
    have ht0 : t = [] := List.length_eq_zero.mp (Nat.le_zero.mp ht)
    subst ht0
    simp [splitGo] at hc
    subst hc
    simp
  | succ n ih =>
    intro t ht c hc
    by_cases hcs : t.length ≤ cs
    · rw [splitGo_single hcs] at hc
      simp at hc
      subst hc
      exact hcs
    · rw [splitGo_cons hcs n] at hc
      rcases List.mem_cons.mp hc with rfl | hmem
      · simp [List.length_take]
      · refine ih (t.drop st) ?_ c hmem
        simp only [List.length_drop]
        omega

theorem splitGo_get {cs st : Nat} (hst : 1 ≤ st) :
    ∀ (fuel : Nat) (t : List Char), t.length ≤ fuel →
      ∀ i, i < (splitGo cs st fuel t).length →
        (splitGo cs st fuel t).get? i = some ((t.drop (i * st)).take cs) := by
  intro fuel
  induction fuel with
  | zero =>
    intro t ht i hi
    have ht0 : t = [] := List.length_eq_zero.mp (Nat.le_zero.mp ht)
    subst ht0
    have hi0 : i = 0 := by
      simp [splitGo] at hi
      omega
    subst hi0
    simp [splitGo]
  | succ n ih =>
    intro t ht i hi
    by_cases hcs : t.length ≤ cs
    · rw [splitGo_single hcs] at hi ⊢
      have hi0 : i = 0 := Nat.lt_one_iff.mp (by simpa using hi)
      subst hi0
      simp [List.take_of_length_le hcs]
    · rw [splitGo_cons hcs n] at hi ⊢
      cases i with
      | zero => simp
      | succ j =>
        have hlen : (t.drop st).length ≤ n := by
          simp only [List.length_drop]
          omega
        have hj : j < (splitGo cs st n (t.drop st)).length := by
          simpa using hi
        simp only [List.get?_cons_succ]
        rw [ih (t.drop st) hlen j hj]
        congr 2
        rw [List.drop_drop]
        congr 1
        ring

theorem splitGo_chain :
    ∀ (fuel : Nat) (t : List Char), t.length ≤ fuel →
      List.Chain' chunkOverlapRel (splitGo 1000 800 fuel t) := by
  intro fuel
  induction fuel with
  | zero =>
    intro t ht
    have ht0 : t = [] := List.length_eq_zero.mp (Nat.le_zero.mp ht)
    subst ht0
    simp [splitGo]
  | succ n ih =>
    intro t ht
    by_cases hcs : t.length ≤ 1000
    · rw [splitGo_single hcs]
      simp
    · rw [splitGo_cons hcs n]
      have hlen : (t.drop 800).length ≤ n := by
        simp only [List.length_drop]
        omega
      rw [List.chain'_cons']
      constructor
      · intro y hy
        rw [splitGo_head hlen] at hy
        have hy2 : (t.drop 800).take 1000 = y := by simpa using hy
        subst hy2
        constructor
        · simp only [List.length_take]
          omega
        · rw [List.drop_take, List.take_take]
          norm_num
      · exact ih (t.drop 800) hlen

theorem splitChunks_length_2400 (t : List Char) (h : t.length = 2400) :
    (splitChunks 1000 200 t).length = 3 := by
  have h1 : ¬ t.length ≤ 1000 := by omega
  have h2 : ¬ (t.drop 800).length ≤ 1000 := by
    rw [List.length_drop, h]
    norm_num
  have h3 : ((t.drop 800).drop 800).length ≤ 1000 := by
    rw [List.length_drop, List.length_drop, h]
    norm_num
  show (splitGo 1000 (1000 - 200) t.length t).length = 3
  rw [h]
  rw [(by norm_num : (1000 : Nat) - 200 = 800)]
  rw [(by norm_num : (2400 : Nat) = 2399 + 1), splitGo_cons h1]
  rw [(by norm_num : (2399 : Nat) = 2398 + 1), splitGo_cons h2]
  rw [splitGo_single h3]
  rfl

/-- C8 (splitter modelled from the spec): chunking is deterministic with
chunk i the window of up to 1000 units starting at offset i * 800; every
chunk has length at most 1000; consecutive chunks overlap in exactly the
200 units shared by the end of the earlier and the start of the later
chunk; and a text of 2400 units yields exactly 3 chunks. -/
theorem c8_chunking :
    (∀ (t : List Char) (i : Nat), i < (splitChunks 1000 200 t).length →
      (splitChunks 1000 200 t).get? i = some ((t.drop (i * 800)).take 1000)) ∧
    (∀ (t : List Char), ∀ c ∈ splitChunks 1000 200 t, c.length ≤ 1000) ∧
    (∀ (t : List Char), List.Chain' chunkOverlapRel (splitChunks 1000 200 t)) ∧
    (∀ (t : List Char), t.length = 2400 → (splitChunks 1000 200 t).length = 3) := by
  have hdef : ∀ t : List Char, splitChunks 1000 200 t = splitGo 1000 800 t.length t :=
    fun t => rfl
  refine ⟨?_, ?_, ?_, fun t h => splitChunks_length_2400 t h⟩
  · intro t i hi
    rw [hdef] at hi ⊢
    exact splitGo_get (by norm_num) t.length t (Nat.le_refl t.length) i hi
  · intro t
    rw [hdef]
    exact splitGo_chunk_le (by norm_num) t.length t (Nat.le_refl t.length)
  · intro t
    rw [hdef]
    exact splitGo_chain t.length t (Nat.le_refl t.length)

/-- C8 witness: on a concrete text of 2400 units the splitter yields 3
chunks, the chunk at index 1 starts at offset 800, and that chunk is at most
1000 units long. -/
theorem c8_witness :
    (splitChunks 1000 200 (List.replicate 2400 'x')).length = 3 ∧
    (splitChunks 1000 200 (List.replicate 2400 'x')).get? 1
      = some (((List.replicate 2400 'x').drop (1 * 800)).take 1000) ∧
    (((List.replicate 2400 'x').drop (1 * 800)).take 1000).length ≤ 1000 := by
  have h3 := c8_chunking.2.2.2 (List.replicate 2400 'x') (by rw [List.length_replicate])
  have h1 : 1 < (splitChunks 1000 200 (List.replicate 2400 'x')).length := by
    rw [h3]
    norm_num
  have hget := c8_chunking.1 (List.replicate 2400 'x') 1 h1
  exact ⟨h3, hget, c8_chunking.2.1 (List.replicate 2400 'x') _ (List.get?_mem hget)⟩

end DocumentAI
